import Mathlib

/-!
Shallow embedding of the OMI configuration validator
(`builder/osc/common/omi_config.go`) and proofs of the specification claims.

Conventions of the embedding:
* Go `map[string]string` becomes an association list `List (String × String)`;
  iteration order of a Go map is unspecified, the list order is one such order.
* Go `[]error` becomes `List String` (the error messages); a `nil` slice is `[]`.
* Go `len` on a string counts bytes, embedded as `String.utf8ByteSize`.
* A `*AccessConfig` that may be `nil` becomes `Option AccessConfig`.
* The unused `*interpolate.Context` parameter of `Prepare` is omitted.
-/

set_option maxHeartbeats 1000000
set_option maxRecDepth 8192

/-- Modelled from the spec: `AccessConfig` is declared outside this file; the
access context carries the region the build originates in (`RawRegion`), the only
field the validator reads. -/
structure AccessConfig where
  RawRegion : String

/-- Modelled from the spec: `TagMap` is declared outside this file; it is a
mapping from tag key to tag value, only carried (never inspected) by the
validator. -/
abbrev TagMap := List (String × String)

/-- The configuration record of `OMIConfig` (omi_config.go, lines 12-32). -/
structure OMIConfig where
  OMIName : String
  OMIDescription : String
  OMIVirtType : String
  OMIUsers : List String
  OMIGroups : List String
  OMIProductCodes : List String
  OMIRegions : List String
  OMISkipRegionValidation : Bool
  OMITags : TagMap
  OMIENASupport : Option Bool
  OMISriovNetSupport : Bool
  OMIForceDeregister : Bool
  OMIForceDeleteSnapshot : Bool
  OMIEncryptBootVolume : Bool
  OMIKmsKeyId : String
  OMIRegionKMSKeyIDs : List (String × String)
  SnapshotTags : TagMap
  SnapshotUsers : List String
  SnapshotGroups : List String

/-- Go `len` on a string (byte length of the UTF-8 encoding). -/
def goLen (s : String) : Nat := s.utf8ByteSize

/-- `stringInSlice` (omi_config.go, lines 34-41): linear scan with early return. -/
def stringInSlice (s : List String) (searchstr : String) : Bool :=
  match s with
  | [] => false
  | item :: rest => if item == searchstr then true else stringInSlice rest searchstr

/-- Go map indexing `m[k]` on the association-list embedding of a map. -/
def mapLookup (m : List (String × String)) (k : String) : Option String :=
  match m with
  | [] => none
  | kv :: rest => if kv.1 == k then some kv.2 else mapLookup rest k

/-- Character class `[a-f0-9-]` of `kmsKeyIdPattern`. -/
def isKmsIdChar (c : Char) : Bool :=
  ('a' <= c && c <= 'f') ||
  ('0' <= c && c <= '9') ||
  c == '-'

/-- Character class `[a-zA-Z0-9:/_-]` of `aliasPattern`. -/
def isAliasChar (c : Char) : Bool :=
  ('a' <= c && c <= 'z') ||
  ('A' <= c && c <= 'Z') ||
  ('0' <= c && c <= '9') ||
  c == ':' || c == '/' || c == '_' || c == '-'

/-- Character class `[a-z]`. -/
def isLowerAZ (c : Char) : Bool :=
  'a' <= c && c <= 'z'

/-- Character class `\d`, i.e. `[0-9]`. -/
def isDigit09 (c : Char) : Bool :=
  '0' <= c && c <= '9'

/-- Consume an exact literal character sequence, returning the remainder. -/
def stripPrefixChars : List Char → List Char → Option (List Char)
  | [], l => some l
  | _ :: _, [] => none
  | p :: ps, c :: cs => if c == p then stripPrefixChars ps cs else none

/-- Split a character list at its first colon; `none` if it has no colon. -/
def splitAtColon : List Char → Option (List Char × List Char)
  | [] => none
  | c :: cs =>
    if c == ':' then some ([], cs)
    else
      match splitAtColon cs with
      | some p => some (c :: p.1, p.2)
      | none => none

/-- Exact match of `[a-z]+-\d{1}`: one or more lowercase letters, a dash, one
digit, consuming the whole list. -/
def lettersDashDigit (l : List Char) : Bool :=
  match l.reverse with
  | d :: h :: rest => isDigit09 d && (h == '-') && !rest.isEmpty && rest.all isLowerAZ
  | _ => false

/-- Exact match of `(gov-)?[a-z]+-\d{1}` (both alternatives of the optional
group, as regex backtracking would try them). -/
def regionTail (l : List Char) : Bool :=
  lettersDashDigit l ||
    (match stripPrefixChars ['g', 'o', 'v', '-'] l with
     | some rest => lettersDashDigit rest
     | none => false)

/-- Exact match of the region group `[a-z]{2}-(gov-)?[a-z]+-\d{1}`. -/
def regionBody : List Char → Bool
  | c0 :: c1 :: c2 :: rest =>
    isLowerAZ c0 && isLowerAZ c1 && (c2 == '-') && regionTail rest
  | _ => false

/-- Consume `(\d{12}):` (exactly twelve digits then a colon), returning the
remainder. -/
def accountColon (l : List Char) : Option (List Char) :=
  if ((l.take 12).length == 12) && (l.take 12).all isDigit09 then
    match l.drop 12 with
    | c :: rest => if c == ':' then some rest else none
    | [] => none
  else none

/-- Consume `([a-z]{2}-(gov-)?[a-z]+-\d{1})?:(\d{12}):` — the part of
`kmsArnStartPattern` following the literal `arn:aws:kms:`.  The region group
cannot contain a colon, so it must match exactly the segment before the first
colon (or be empty with the colon immediately following); the account group has
fixed width twelve. -/
def arnKmsTail (l : List Char) : Option (List Char) :=
  match splitAtColon l with
  | none => none
  | some p => if p.1.isEmpty || regionBody p.1 then accountColon p.2 else none

/-- The literal `arn:aws:kms:` as characters. -/
def arnStartChars : List Char :=
  ['a', 'r', 'n', ':', 'a', 'w', 's', ':', 'k', 'm', 's', ':']

/-- The literal `alias/` as characters. -/
def aliasSlashChars : List Char :=
  ['a', 'l', 'i', 'a', 's', '/']

/-- The literal `key/` as characters. -/
def keySlashChars : List Char :=
  ['k', 'e', 'y', '/']

/-- Anchored regex `^[a-f0-9-]+$` (first shape of `validateKmsKey`). -/
def matchKmsKeyId (s : String) : Bool :=
  !s.data.isEmpty && s.data.all isKmsIdChar

/-- One or more characters of `[a-zA-Z0-9:/_-]`, consuming the whole list. -/
def aliasBodyOk (l : List Char) : Bool :=
  !l.isEmpty && l.all isAliasChar

/-- Anchored regex `^alias/[a-zA-Z0-9:/_-]+$` (second shape of `validateKmsKey`). -/
def matchAliasRef (s : String) : Bool :=
  match stripPrefixChars aliasSlashChars s.data with
  | some rest => aliasBodyOk rest
  | none => false

/-- Anchored regex `^arn:aws:kms:(region)?:(\d{12}):key/[a-f0-9-]+$` (third
shape of `validateKmsKey`). -/
def matchArnKey (s : String) : Bool :=
  match stripPrefixChars arnStartChars s.data with
  | none => false
  | some l =>
    match arnKmsTail l with
    | none => false
    | some rest =>
      match stripPrefixChars keySlashChars rest with
      | some kid => !kid.isEmpty && kid.all isKmsIdChar
      | none => false

/-- Anchored regex `^arn:aws:kms:(region)?:(\d{12}):alias/[a-zA-Z0-9:/_-]+$`
(fourth shape of `validateKmsKey`). -/
def matchArnAlias (s : String) : Bool :=
  match stripPrefixChars arnStartChars s.data with
  | none => false
  | some l =>
    match arnKmsTail l with
    | none => false
    | some rest =>
      match stripPrefixChars aliasSlashChars rest with
      | some body => aliasBodyOk body
      | none => false

/-- `validateKmsKey` (omi_config.go, lines 150-167): four anchored regex
alternatives tried in order with early return. -/
def validateKmsKey (kmsKey : String) : Bool :=
  if matchKmsKeyId kmsKey then true
  else if matchAliasRef kmsKey then true
  else if matchArnKey kmsKey then true
  else if matchArnAlias kmsKey then true
  else false

/-- Error text `Region %s is in region_kms_key_ids but not in omi_regions`. -/
def regionNotInOmiMsg (r : String) : String :=
  "Region " ++ r ++ " is in region_kms_key_ids but not in omi_regions"

/-- Error text `Region %s is in omi_regions but not in region_kms_key_ids`. -/
def regionNotInMapMsg (r : String) : String :=
  "Region " ++ r ++ " is in omi_regions but not in region_kms_key_ids"

/-- Error text `%s is not a valid KMS Key Id.`. -/
def kmsInvalidMsg (k : String) : String :=
  k ++ " is not a valid KMS Key Id."

/-- Error text for a missing `omi_name`. -/
def msgNameRequired : String := "omi_name must be specified"

/-- Error text for sharing an OMI with an encrypted boot volume. -/
def msgShareEncrypted : String := "Cannot share OMI with encrypted boot volume"

/-- Error text for sharing a snapshot encrypted with the default KMS key. -/
def msgSnapshotDefaultKey : String := "Cannot share snapshot encrypted with default KMS key"

/-- Error text for an `omi_name` whose length is out of bounds. -/
def msgNameLength : String := "omi_name must be between 3 and 128 characters long"

/-- Error text for an `omi_name` with disallowed characters. -/
def msgNameClean : String :=
  "OMIName should only contain alphanumeric characters, parentheses (()), square brackets ([]), spaces ( ), periods (.), slashes (/), dashes (-), single quotes (\x27), at-signs (@), or underscores(_). You can use the \x60clean_omi_name\x60 template filter to automatically clean your omi name."

/-- Characters an OMI name may contain without needing cleaning: alphanumeric,
parentheses, square brackets, space, period, slash, dash, single quote
(character 39), at-sign, or underscore. -/
def isCleanNameChar (c : Char) : Bool :=
  ('a' <= c && c <= 'z') ||
  ('A' <= c && c <= 'Z') ||
  ('0' <= c && c <= '9') ||
  c == '(' || c == ')' || c == '[' || c == ']' || c == ' ' || c == '.' ||
  c == '/' || c == '-' || c == Char.ofNat 39 || c == '@' || c == '_'

/-- Modelled from the spec: `templateCleanOMIName` (the `clean_omi_name`
template filter) is declared outside this file; per the spec it is a collaborator
that strips every disallowed character from a name, keeping the allowed set. -/
def templateCleanOMIName (s : String) : String :=
  String.mk (s.data.filter isCleanNameChar)

/-- Whether a region equals the origin region of the access context, i.e. the Go
condition `(accessConfig != nil) && (region == accessConfig.RawRegion)`. -/
def originMatches (ac : Option AccessConfig) (region : String) : Bool :=
  match ac with
  | some a => region == a.RawRegion
  | none => false

/-- The loop body of `prepareRegions` (omi_config.go, lines 116-144): iterate
the input regions carrying the seen-set `seen`, the output slice `acc` and the
error slice `errs`. -/
def prepareRegionsLoop (regionKeyMap : List (String × String)) (ac : Option AccessConfig)
    (seen acc errs : List String) : List String → List String × List String
  | [] => (acc, errs)
  | region :: rest =>
    if stringInSlice seen region then
      prepareRegionsLoop regionKeyMap ac seen acc errs rest
    else
      let seen1 := region :: seen
      let errs1 :=
        if regionKeyMap.length > 0 then
          if (mapLookup regionKeyMap region).isNone then errs ++ [regionNotInMapMsg region]
          else errs
        else errs
      if originMatches ac region then
        prepareRegionsLoop regionKeyMap ac seen1 acc errs1 rest
      else
        prepareRegionsLoop regionKeyMap ac seen1 (acc ++ [region]) errs1 rest

/-- `prepareRegions` (omi_config.go, lines 115-148): the region reconciler.  It
returns the updated configuration (Go mutates `c.OMIRegions` in place) together
with the accumulated errors. -/
def OMIConfig.prepareRegions (c : OMIConfig) (accessConfig : Option AccessConfig) :
    OMIConfig × List String :=
  if c.OMIRegions.length > 0 then
    let p := prepareRegionsLoop c.OMIRegionKMSKeyIDs accessConfig [] [] [] c.OMIRegions
    ({ c with OMIRegions := p.1 }, p.2)
  else (c, [])

/-- Errors of the `omi_name must be specified` check (omi_config.go, lines 46-48). -/
def nameRequiredErrs (c : OMIConfig) : List String :=
  if c.OMIName == "" then [msgNameRequired] else []

/-- Errors of the map-key/regions cross check (omi_config.go, lines 52-58):
every key of `region_kms_key_ids` must be listed in `omi_regions`. -/
def regionKeyMapCrossErrs (c : OMIConfig) : List String :=
  if c.OMIRegionKMSKeyIDs.length > 0 then
    c.OMIRegionKMSKeyIDs.foldl
      (fun es kv => if !stringInSlice c.OMIRegions kv.1 then es ++ [regionNotInOmiMsg kv.1] else es)
      []
  else []

/-- Errors of the users/encrypted-boot check (omi_config.go, lines 62-64). -/
def shareEncryptErrs (c : OMIConfig) : List String :=
  if c.OMIUsers.length > 0 && c.OMIEncryptBootVolume then [msgShareEncrypted] else []

/-- The candidate KMS key list `kmsKeys` (omi_config.go, lines 66-76): the
default key id when non-empty, plus one copy of the default key id for every
empty-valued entry of `region_kms_key_ids`. -/
def kmsKeys (c : OMIConfig) : List String :=
  (if goLen c.OMIKmsKeyId > 0 then [c.OMIKmsKeyId] else []) ++
  (if c.OMIRegionKMSKeyIDs.length > 0 then
    c.OMIRegionKMSKeyIDs.foldl
      (fun ks kv => if goLen kv.2 == 0 then ks ++ [c.OMIKmsKeyId] else ks)
      []
  else [])

/-- Errors of the KMS key format check (omi_config.go, lines 77-81). -/
def kmsKeyErrs (c : OMIConfig) : List String :=
  (kmsKeys c).foldl
    (fun es k => if !validateKmsKey k then es ++ [kmsInvalidMsg k] else es)
    []

/-- Errors of the snapshot-sharing checks (omi_config.go, lines 83-94). -/
def snapshotShareErrs (c : OMIConfig) : List String :=
  if c.SnapshotUsers.length > 0 then
    (if goLen c.OMIKmsKeyId == 0 && c.OMIEncryptBootVolume then [msgSnapshotDefaultKey] else []) ++
    (if c.OMIRegionKMSKeyIDs.length > 0 then
      c.OMIRegionKMSKeyIDs.foldl
        (fun es kv => if goLen kv.2 == 0 then es ++ [msgSnapshotDefaultKey] else es)
        []
    else [])
  else []

/-- Errors of the name length bounds check (omi_config.go, lines 96-98). -/
def nameLengthErrs (c : OMIConfig) : List String :=
  if goLen c.OMIName < 3 || goLen c.OMIName > 128 then [msgNameLength] else []

/-- Errors of the name character-set check (omi_config.go, lines 100-106). -/
def nameCleanErrs (c : OMIConfig) : List String :=
  if c.OMIName != templateCleanOMIName c.OMIName then [msgNameClean] else []

/-- `Prepare` (omi_config.go, lines 43-113): the validator orchestrator.  Go
mutates the receiver (only `prepareRegions` writes to it) and returns the error
slice; the embedding returns the updated configuration paired with the errors
(`nil` on success becomes `[]`). -/
def OMIConfig.Prepare (c : OMIConfig) (accessConfig : Option AccessConfig) :
    OMIConfig × List String :=
  let p := c.prepareRegions accessConfig
  let c2 := p.1
  (c2,
    nameRequiredErrs c ++
    regionKeyMapCrossErrs c ++
    p.2 ++
    shareEncryptErrs c2 ++
    kmsKeyErrs c2 ++
    snapshotShareErrs c2 ++
    nameLengthErrs c2 ++
    nameCleanErrs c2)

/-- First-occurrence deduplication of a list of regions, skipping entries of
`seen`: the reference order in which `prepareRegions` visits distinct regions. -/
def dedupFirstFrom (seen : List String) : List String → List String
  | [] => []
  | r :: rest =>
    if stringInSlice seen r then dedupFirstFrom seen rest
    else r :: dedupFirstFrom (r :: seen) rest

theorem stringInSlice_eq_true_iff (l : List String) (x : String) :
    stringInSlice l x = true ↔ x ∈ l := by
  induction l with
  | nil => simp [stringInSlice]
  | cons a t ih =>
    cases h : a == x with
    | true =>
      have ha : a = x := eq_of_beq h
      subst ha
      simp [stringInSlice]
    | false =>
      have hne : x ≠ a := fun hh => by subst hh; simp at h
      simp [stringInSlice, h, ih, hne]

theorem stringInSlice_eq_false_iff (l : List String) (x : String) :
    stringInSlice l x = false ↔ x ∉ l := by
  rw [← stringInSlice_eq_true_iff l x]
  cases stringInSlice l x <;> simp

theorem mem_dedupFirstFrom_not_seen :
    ∀ (l seen : List String) (x : String), x ∈ dedupFirstFrom seen l → x ∉ seen := by
  intro l
  induction l with
  | nil => intro seen x h; simp [dedupFirstFrom] at h
  | cons r rest ih =>
    intro seen x h
    simp only [dedupFirstFrom] at h
    by_cases hs : stringInSlice seen r = true
    · rw [if_pos hs] at h
      exact ih seen x h
    · rw [if_neg hs] at h
      rcases List.mem_cons.mp h with h1 | h2
      · subst h1
        intro hx
        exact hs ((stringInSlice_eq_true_iff _ _).mpr hx)
      · intro hx
        exact ih (r :: seen) x h2 (List.mem_cons_of_mem _ hx)

theorem dedupFirstFrom_nodup : ∀ (l seen : List String), (dedupFirstFrom seen l).Nodup := by
  intro l
  induction l with
  | nil => intro seen; simp [dedupFirstFrom]
  | cons r rest ih =>
    intro seen
    simp only [dedupFirstFrom]
    by_cases hs : stringInSlice seen r = true
    · rw [if_pos hs]; exact ih seen
    · rw [if_neg hs]
      refine List.nodup_cons.mpr ⟨?_, ih (r :: seen)⟩
      intro hmem
      exact mem_dedupFirstFrom_not_seen rest (r :: seen) r hmem (List.mem_cons_self r seen)

theorem mem_of_mem_dedupFirstFrom :
    ∀ (l seen : List String) (x : String), x ∈ dedupFirstFrom seen l → x ∈ l := by
  intro l
  induction l with
  | nil => intro seen x h; simp [dedupFirstFrom] at h
  | cons r rest ih =>
    intro seen x h
    simp only [dedupFirstFrom] at h
    by_cases hs : stringInSlice seen r = true
    · rw [if_pos hs] at h
      exact List.mem_cons_of_mem _ (ih seen x h)
    · rw [if_neg hs] at h
      rcases List.mem_cons.mp h with h1 | h2
      · exact h1 ▸ List.mem_cons_self r rest
      · exact List.mem_cons_of_mem _ (ih (r :: seen) x h2)

theorem dedupFirstFrom_eq_self :
    ∀ (l : List String), l.Nodup → ∀ seen : List String, (∀ x ∈ l, x ∉ seen) →
      dedupFirstFrom seen l = l := by
  intro l
  induction l with
  | nil => intro _ seen _; rfl
  | cons r rest ih =>
    intro hnd seen hsub
    have hr : r ∉ seen := hsub r (List.mem_cons_self r rest)
    have hs : ¬ stringInSlice seen r = true := fun h =>
      hr ((stringInSlice_eq_true_iff _ _).mp h)
    have hnd' := List.nodup_cons.mp hnd
    simp only [dedupFirstFrom, if_neg hs]
    refine congrArg (r :: ·) (ih hnd'.2 (r :: seen) ?_)
    intro x hx
    intro hmem
    rcases List.mem_cons.mp hmem with h1 | h2
    · exact hnd'.1 (h1 ▸ hx)
    · exact hsub x (List.mem_cons_of_mem _ hx) h2

/-- The membership-error condition tested by `prepareRegions` for one region. -/
def regionErrOpt (m : List (String × String)) (r : String) : Option String :=
  if m.length > 0 then
    if (mapLookup m r).isNone then some (regionNotInMapMsg r) else none
  else none

theorem prepareRegionsLoop_eq (m : List (String × String)) (ac : Option AccessConfig) :
    ∀ (l seen acc errs : List String),
      prepareRegionsLoop m ac seen acc errs l =
        (acc ++ (dedupFirstFrom seen l).filter (fun r => !originMatches ac r),
         errs ++ (dedupFirstFrom seen l).filterMap (regionErrOpt m)) := by
  intro l
  induction l with
  | nil => intro seen acc errs; simp [prepareRegionsLoop, dedupFirstFrom]
  | cons region rest ih =>
    intro seen acc errs
    have herrs1 :
        (if m.length > 0 then
          if (mapLookup m region).isNone then errs ++ [regionNotInMapMsg region] else errs
         else errs) = errs ++ (regionErrOpt m region).toList := by
      unfold regionErrOpt
      by_cases hm0 : m.length > 0
      · by_cases hl : (mapLookup m region).isNone
        · simp [hm0, hl]
        · simp [hm0, hl]
      · simp [hm0]
    by_cases hs : stringInSlice seen region = true
    · simp only [prepareRegionsLoop, dedupFirstFrom, if_pos hs]
      exact ih seen acc errs
    · cases ho : originMatches ac region with
      | true =>
        simp only [prepareRegionsLoop, dedupFirstFrom, if_neg hs, ho, if_true, herrs1,
          ih ((region :: seen)) acc (errs ++ (regionErrOpt m region).toList),
          List.filter_cons, List.filterMap_cons, Bool.not_true, if_false]
        cases hopt : regionErrOpt m region <;>
          simp [hopt, List.append_assoc, List.singleton_append]
      | false =>
        simp only [prepareRegionsLoop, dedupFirstFrom, if_neg hs, ho, if_false, herrs1,
          ih ((region :: seen)) (acc ++ [region]) (errs ++ (regionErrOpt m region).toList),
          List.filter_cons, List.filterMap_cons, Bool.not_false, if_true]
        cases hopt : regionErrOpt m region <;>
          simp [hopt, List.append_assoc, List.singleton_append]

theorem prepareRegions_eq (c : OMIConfig) (ac : Option AccessConfig) :
    c.prepareRegions ac =
      ({ c with OMIRegions :=
          (dedupFirstFrom [] c.OMIRegions).filter (fun r => !originMatches ac r) },
       (dedupFirstFrom [] c.OMIRegions).filterMap (regionErrOpt c.OMIRegionKMSKeyIDs)) := by
  by_cases h : c.OMIRegions.length > 0
  · simp only [OMIConfig.prepareRegions, if_pos h, prepareRegionsLoop_eq, List.nil_append]
  · have h0 : c.OMIRegions = [] := List.length_eq_zero.mp (Nat.eq_zero_of_not_pos h)
    simp only [OMIConfig.prepareRegions, if_neg h, h0, dedupFirstFrom, List.filter_nil,
      List.filterMap_nil]
    refine Prod.ext ?_ rfl
    show c = { c with OMIRegions := [] }
    rw [← h0]

theorem foldl_append_filterMap {α : Type} (p : α → Bool) (g : α → String) :
    ∀ (l : List α) (init : List String),
      l.foldl (fun es x => if p x then es ++ [g x] else es) init =
        init ++ l.filterMap (fun x => if p x then some (g x) else none) := by
  intro l
  induction l with
  | nil => intro init; simp
  | cons a t ih =>
    intro init
    cases h : p a <;>
      simp [List.foldl_cons, h, ih, List.filterMap_cons, List.append_assoc,
        List.singleton_append]

theorem filterMap_ite_const {α : Type} (p : α → Bool) (y : String) :
    ∀ l : List α,
      l.filterMap (fun x => if p x then some y else none) =
        List.replicate (l.filter p).length y := by
  intro l
  induction l with
  | nil => rfl
  | cons a t ih =>
    cases h : p a <;>
      simp [List.filterMap_cons, List.filter_cons, h, ih, List.replicate_succ]

theorem goLen_eq_zero_iff (s : String) : goLen s = 0 ↔ s = "" := by
  cases s with
  | mk data =>
    rw [String.ext_iff]
    simp [goLen]

theorem goLen_pos_iff (s : String) : goLen s > 0 ↔ s ≠ "" := by
  rw [ne_eq, ← goLen_eq_zero_iff]
  omega

theorem string_ne_of_head {a b : String} (h : a.data.head? ≠ b.data.head?) : a ≠ b :=
  fun he => h (by rw [he])

theorem string_ne_of_last {a b : String} (h : a.data.getLast? ≠ b.data.getLast?) : a ≠ b :=
  fun he => h (by rw [he])

theorem regionNotInOmiMsg_head (r : String) : (regionNotInOmiMsg r).data.head? = some 'R' := rfl

theorem regionNotInMapMsg_head (r : String) : (regionNotInMapMsg r).data.head? = some 'R' := rfl

theorem kmsInvalidMsg_last (k : String) : (kmsInvalidMsg k).data.getLast? = some '.' := by
  show (k ++ " is not a valid KMS Key Id.").data.getLast? = some '.'
  rw [String.data_append, List.getLast?_append]
  rfl

theorem regionNotInMapMsg_inj {r₁ r₂ : String}
    (h : regionNotInMapMsg r₁ = regionNotInMapMsg r₂) : r₁ = r₂ := by
  have hd := congrArg String.data h
  simp only [regionNotInMapMsg, String.data_append] at hd
  exact String.ext (List.append_cancel_left (List.append_cancel_right hd))

theorem Prepare_fst (c : OMIConfig) (ac : Option AccessConfig) :
    (c.Prepare ac).1 = (c.prepareRegions ac).1 := rfl

theorem Prepare_errs (c : OMIConfig) (ac : Option AccessConfig) :
    (c.Prepare ac).2 =
      nameRequiredErrs c ++ regionKeyMapCrossErrs c ++ (c.prepareRegions ac).2 ++
      shareEncryptErrs c ++ kmsKeyErrs c ++ snapshotShareErrs c ++
      nameLengthErrs c ++ nameCleanErrs c := by
  simp only [OMIConfig.Prepare, prepareRegions_eq]
  rfl

theorem mem_nameRequiredErrs {c : OMIConfig} {x : String} (h : x ∈ nameRequiredErrs c) :
    x = msgNameRequired := by
  unfold nameRequiredErrs at h
  split at h
  · simpa using h
  · simp at h

theorem mem_regionKeyMapCrossErrs {c : OMIConfig} {x : String}
    (h : x ∈ regionKeyMapCrossErrs c) : ∃ r, x = regionNotInOmiMsg r := by
  unfold regionKeyMapCrossErrs at h
  split at h
  · rw [foldl_append_filterMap, List.nil_append] at h
    rcases List.mem_filterMap.mp h with ⟨kv, _, hf⟩
    revert hf
    split
    · intro hf; exact ⟨kv.1, (Option.some.inj hf).symm⟩
    · intro hf; simp at hf
  · simp at h

theorem mem_prepareRegions_snd {c : OMIConfig} {ac : Option AccessConfig} {x : String}
    (h : x ∈ (c.prepareRegions ac).2) : ∃ r, x = regionNotInMapMsg r := by
  rw [prepareRegions_eq] at h
  rcases List.mem_filterMap.mp h with ⟨r, _, hf⟩
  unfold regionErrOpt at hf
  revert hf
  split
  · split
    · intro hf; exact ⟨r, (Option.some.inj hf).symm⟩
    · intro hf; simp at hf
  · intro hf; simp at hf

theorem mem_shareEncryptErrs {c : OMIConfig} {x : String} (h : x ∈ shareEncryptErrs c) :
    x = msgShareEncrypted := by
  unfold shareEncryptErrs at h
  split at h
  · simpa using h
  · simp at h

theorem mem_kmsKeyErrs {c : OMIConfig} {x : String} (h : x ∈ kmsKeyErrs c) :
    ∃ k, k ∈ kmsKeys c ∧ x = kmsInvalidMsg k := by
  unfold kmsKeyErrs at h
  rw [foldl_append_filterMap, List.nil_append] at h
  rcases List.mem_filterMap.mp h with ⟨k, hk, hf⟩
  revert hf
  split
  · intro hf; exact ⟨k, hk, (Option.some.inj hf).symm⟩
  · intro hf; simp at hf

theorem mem_snapshotShareErrs {c : OMIConfig} {x : String} (h : x ∈ snapshotShareErrs c) :
    x = msgSnapshotDefaultKey := by
  unfold snapshotShareErrs at h
  split at h
  · rcases List.mem_append.mp h with h1 | h2
    · revert h1
      split
      · intro h1; simpa using h1
      · intro h1; simp at h1
    · revert h2
      split
      · intro h2
        rw [foldl_append_filterMap, List.nil_append] at h2
        rcases List.mem_filterMap.mp h2 with ⟨kv, _, hf⟩
        revert hf
        split
        · intro hf; exact (Option.some.inj hf).symm
        · intro hf; simp at hf
      · intro h2; simp at h2
  · simp at h

theorem mem_nameLengthErrs {c : OMIConfig} {x : String} :
    x ∈ nameLengthErrs c ↔
      (goLen c.OMIName < 3 ∨ goLen c.OMIName > 128) ∧ x = msgNameLength := by
  by_cases hcond : goLen c.OMIName < 3 ∨ goLen c.OMIName > 128
  · simp [nameLengthErrs, hcond]
  · simp [nameLengthErrs, hcond]

theorem mem_nameCleanErrs {c : OMIConfig} {x : String} (h : x ∈ nameCleanErrs c) :
    x = msgNameClean := by
  unfold nameCleanErrs at h
  split at h
  · simpa using h
  · simp at h

theorem goLen_empty : goLen "" = 0 := rfl

theorem goLen_beq_zero (s : String) : (goLen s == 0) = (s == "") := by
  by_cases h : s = ""
  · subst h; rfl
  · have h0 : ¬ goLen s = 0 := fun hh => h ((goLen_eq_zero_iff s).mp hh)
    have hb : (goLen s == 0) = false := by
      cases hbb : goLen s == 0
      · rfl
      · exact absurd (eq_of_beq hbb) h0
    have hc : (s == "") = false := by
      cases hcc : s == ""
      · rfl
      · exact absurd (eq_of_beq hcc) h
    rw [hb, hc]

theorem filter_emptyVal_eq (m : List (String × String)) :
    m.filter (fun kv => goLen kv.2 == 0) = m.filter (fun kv => kv.2 == "") :=
  List.filter_congr (fun x _ => goLen_beq_zero x.2)

/-- A fixed configuration used to instantiate concrete checks: a valid 6-byte
name and every other field empty or false. -/
def sampleConfig : OMIConfig := {
  OMIName := "foobar"
  OMIDescription := ""
  OMIVirtType := ""
  OMIUsers := []
  OMIGroups := []
  OMIProductCodes := []
  OMIRegions := []
  OMISkipRegionValidation := false
  OMITags := []
  OMIENASupport := none
  OMISriovNetSupport := false
  OMIForceDeregister := false
  OMIForceDeleteSnapshot := false
  OMIEncryptBootVolume := false
  OMIKmsKeyId := ""
  OMIRegionKMSKeyIDs := []
  SnapshotTags := []
  SnapshotUsers := []
  SnapshotGroups := [] }

/-- Claim C2: `validateKmsKey` is a pure predicate returning true exactly for the
four anchored shapes (bare key id, alias reference, ARN naming a key, ARN naming
an alias); it accepts the four listed well-formed keys and rejects the empty
string, `not-a-key!`, and `Alias/bad-case`. -/
theorem C2_validateKmsKey_shapes :
    (∀ s : String, validateKmsKey s =
        (matchKmsKeyId s || matchAliasRef s || matchArnKey s || matchArnAlias s)) ∧
    validateKmsKey "1234abcd-12ab-34cd-56ef-1234567890ab" = true ∧
    validateKmsKey "alias/my-key" = true ∧
    validateKmsKey "arn:aws:kms:us-east-1:123456789012:key/1234abcd-12ab-34cd-56ef-1234567890ab" = true ∧
    validateKmsKey "arn:aws:kms:us-east-1:123456789012:alias/my-key" = true ∧
    validateKmsKey "" = false ∧
    validateKmsKey "not-a-key!" = false ∧
    validateKmsKey "Alias/bad-case" = false := by
  refine ⟨?_, by decide, by decide, by decide, by decide, by decide, by decide, by decide⟩
  intro s
  unfold validateKmsKey
  cases matchKmsKeyId s <;> cases matchAliasRef s <;> cases matchArnKey s <;>
    cases matchArnAlias s <;> rfl

/-- Claim C1: after `Prepare` returns, the `OMIRegions` field contains no
duplicates, contains no entry equal to the origin region when the access context
is present, and lists the remaining entries in first-occurrence order of the
input list (it equals the first-occurrence deduplication of the input with the
origin region filtered out). -/
theorem C1_regions_invariant (c : OMIConfig) (ac : Option AccessConfig) :
    ((c.Prepare ac).1.OMIRegions).Nodup ∧
    (∀ a : AccessConfig, ac = some a → a.RawRegion ∉ (c.Prepare ac).1.OMIRegions) ∧
    (c.Prepare ac).1.OMIRegions =
      (dedupFirstFrom [] c.OMIRegions).filter (fun r => !originMatches ac r) := by
  have hreg : (c.Prepare ac).1.OMIRegions =
      (dedupFirstFrom [] c.OMIRegions).filter (fun r => !originMatches ac r) := by
    rw [Prepare_fst, prepareRegions_eq]
  refine ⟨?_, ?_, hreg⟩
  · rw [hreg]
    exact (dedupFirstFrom_nodup c.OMIRegions []).filter _
  · intro a hac hmem
    rw [hreg] at hmem
    have := (List.mem_filter.mp hmem).2
    rw [hac] at this
    simp [originMatches] at this

/-- Witness for C1 at a concrete input: regions `["a","b","a","c"]` with origin
region `"b"`; the origin region is absent from the prepared region list. -/
theorem C1_regions_invariant_witness :
    "b" ∉ ({ sampleConfig with OMIRegions := ["a", "b", "a", "c"] }.Prepare
        (some { RawRegion := "b" })).1.OMIRegions := by
  have h := (C1_regions_invariant { sampleConfig with OMIRegions := ["a", "b", "a", "c"] }
    (some { RawRegion := "b" })).2.1 { RawRegion := "b" } rfl
  exact h

theorem regionMsg_notMem_filterMap {l : List String} {q : String → Bool} {r : String}
    (hr : r ∉ l) :
    regionNotInMapMsg r ∉
      l.filterMap (fun x => if q x then some (regionNotInMapMsg x) else none) := by
  intro hmem
  rcases List.mem_filterMap.mp hmem with ⟨x, hx, hf⟩
  revert hf
  split
  · intro hf
    exact hr (regionNotInMapMsg_inj (Option.some.inj hf) ▸ hx)
  · intro hf; simp at hf

theorem count_filterMap_regionMsg :
    ∀ (l : List String), l.Nodup → ∀ (q : String → Bool) (r : String), r ∈ l → q r = true →
      ((l.filterMap (fun x => if q x then some (regionNotInMapMsg x) else none)).count
        (regionNotInMapMsg r)) = 1 := by
  intro l
  induction l with
  | nil => intro _ q r hr; simp at hr
  | cons a t ih =>
    intro hnd q r hr hq
    have hnd' := List.nodup_cons.mp hnd
    rcases List.mem_cons.mp hr with h1 | h2
    · subst h1
      rw [List.filterMap_cons_some (b := regionNotInMapMsg r) (by simp [hq]), List.count_cons_self,
        List.count_eq_zero.mpr (regionMsg_notMem_filterMap hnd'.1)]
    · have hne : regionNotInMapMsg r ≠ regionNotInMapMsg a := by
        intro he
        exact hnd'.1 (regionNotInMapMsg_inj he ▸ h2)
      by_cases hqa : q a = true
      · rw [List.filterMap_cons_some (b := regionNotInMapMsg a) (by simp [hqa]),
          List.count_cons_of_ne hne]
        exact ih hnd'.2 q r h2 hq
      · rw [List.filterMap_cons_none (by simp [hqa])]
        exact ih hnd'.2 q r h2 hq

/-- Claim C3: whenever `region_kms_key_ids` is non-empty, the reconciler emits
exactly one `Region r is in omi_regions but not in region_kms_key_ids` error for
every distinct region of the input (first occurrence only, duplicates skipped)
that is not a key of the map, in first-occurrence order and before the origin
region is dropped — so the origin region is checked too. -/
theorem C3_region_not_in_map_errors (c : OMIConfig) (ac : Option AccessConfig)
    (hm : c.OMIRegionKMSKeyIDs ≠ []) :
    (c.prepareRegions ac).2 =
      (dedupFirstFrom [] c.OMIRegions).filterMap
        (fun r => if (mapLookup c.OMIRegionKMSKeyIDs r).isNone
                  then some (regionNotInMapMsg r) else none) ∧
    ∀ r, r ∈ dedupFirstFrom [] c.OMIRegions →
      (mapLookup c.OMIRegionKMSKeyIDs r).isNone = true →
      ((c.prepareRegions ac).2.count (regionNotInMapMsg r)) = 1 := by
  have hlen : c.OMIRegionKMSKeyIDs.length > 0 := List.length_pos.mpr hm
  have h2 : (c.prepareRegions ac).2 =
      (dedupFirstFrom [] c.OMIRegions).filterMap
        (fun r => if (mapLookup c.OMIRegionKMSKeyIDs r).isNone
                  then some (regionNotInMapMsg r) else none) := by
    have hfun : regionErrOpt c.OMIRegionKMSKeyIDs =
        (fun r => if (mapLookup c.OMIRegionKMSKeyIDs r).isNone
                  then some (regionNotInMapMsg r) else none) := by
      funext r
      simp [regionErrOpt, hlen]
    rw [prepareRegions_eq, hfun]
  refine ⟨h2, ?_⟩
  intro r hr hnone
  rw [h2]
  exact count_filterMap_regionMsg _ (dedupFirstFrom_nodup _ _) _ r hr hnone

/-- A concrete configuration for the C3 witness: two regions, a key map naming
only the first. -/
def c3Config : OMIConfig :=
  { sampleConfig with OMIRegions := ["a", "b"], OMIRegionKMSKeyIDs := [("a", "key1")] }

/-- Witness for C3 at a concrete input: `regionKeyMap = [("a","key1")]`,
`regions = ["a","b"]`; exactly one error is emitted for `b`. -/
theorem C3_region_not_in_map_errors_witness :
    ((c3Config.prepareRegions none).2.count (regionNotInMapMsg "b")) = 1 :=
  (C3_region_not_in_map_errors c3Config none (by decide)).2 "b" (by decide) (by decide)

theorem kmsKeys_eq (c : OMIConfig) :
    kmsKeys c =
      (if c.OMIKmsKeyId ≠ "" then [c.OMIKmsKeyId] else []) ++
      List.replicate ((c.OMIRegionKMSKeyIDs.filter (fun kv => kv.2 == "")).length)
        c.OMIKmsKeyId := by
  unfold kmsKeys
  have h1 : (if goLen c.OMIKmsKeyId > 0 then [c.OMIKmsKeyId] else []) =
      (if c.OMIKmsKeyId ≠ "" then [c.OMIKmsKeyId] else []) := by
    by_cases h : c.OMIKmsKeyId = ""
    · simp [h, goLen_eq_zero_iff]
    · simp [h, (goLen_pos_iff c.OMIKmsKeyId).mpr h]
  have h2 : (if c.OMIRegionKMSKeyIDs.length > 0 then
        c.OMIRegionKMSKeyIDs.foldl
          (fun ks kv => if goLen kv.2 == 0 then ks ++ [c.OMIKmsKeyId] else ks) []
      else []) =
      List.replicate ((c.OMIRegionKMSKeyIDs.filter (fun kv => kv.2 == "")).length)
        c.OMIKmsKeyId := by
    by_cases hm : c.OMIRegionKMSKeyIDs.length > 0
    · rw [if_pos hm,
        foldl_append_filterMap (fun kv : String × String => goLen kv.2 == 0)
          (fun _ : String × String => c.OMIKmsKeyId),
        List.nil_append, filterMap_ite_const, filter_emptyVal_eq]
    · have h0 : c.OMIRegionKMSKeyIDs = [] := List.length_eq_zero.mp (Nat.eq_zero_of_not_pos hm)
      simp [h0]
  rw [h1, h2]

theorem kmsKeyErrs_eq (c : OMIConfig) :
    kmsKeyErrs c =
      (kmsKeys c).filterMap
        (fun k => if validateKmsKey k then none else some (kmsInvalidMsg k)) := by
  unfold kmsKeyErrs
  rw [foldl_append_filterMap (fun k => !validateKmsKey k) kmsInvalidMsg, List.nil_append]
  have hfun : (fun k => if !validateKmsKey k then some (kmsInvalidMsg k) else none) =
      (fun k => if validateKmsKey k then none else some (kmsInvalidMsg k)) := by
    funext k
    cases h : validateKmsKey k <;> simp [h]
  rw [hfun]

/-- Claim C4: the candidate KMS key list is the default key id (only when
non-empty) followed by one additional copy of the default key id per
empty-valued entry of `region_kms_key_ids`; every candidate is checked with the
recognizer and each failing candidate yields exactly one error naming it. -/
theorem C4_kms_candidates (c : OMIConfig) :
    kmsKeys c =
      (if c.OMIKmsKeyId ≠ "" then [c.OMIKmsKeyId] else []) ++
      List.replicate ((c.OMIRegionKMSKeyIDs.filter (fun kv => kv.2 == "")).length)
        c.OMIKmsKeyId ∧
    kmsKeyErrs c =
      (kmsKeys c).filterMap
        (fun k => if validateKmsKey k then none else some (kmsInvalidMsg k)) :=
  ⟨kmsKeys_eq c, kmsKeyErrs_eq c⟩

theorem snapshotShareErrs_eq (c : OMIConfig) :
    snapshotShareErrs c =
      List.replicate
        (if c.SnapshotUsers = [] then 0
         else (if c.OMIKmsKeyId = "" ∧ c.OMIEncryptBootVolume = true then 1 else 0) +
              (c.OMIRegionKMSKeyIDs.filter (fun kv => kv.2 == "")).length)
        msgSnapshotDefaultKey := by
  unfold snapshotShareErrs
  by_cases hu : c.SnapshotUsers = []
  · simp [hu]
  · have hul : c.SnapshotUsers.length > 0 := List.length_pos.mpr hu
    rw [if_pos hul, if_neg hu]
    have h2 : (if c.OMIRegionKMSKeyIDs.length > 0 then
          c.OMIRegionKMSKeyIDs.foldl
            (fun es kv => if goLen kv.2 == 0 then es ++ [msgSnapshotDefaultKey] else es) []
        else []) =
        List.replicate ((c.OMIRegionKMSKeyIDs.filter (fun kv => kv.2 == "")).length)
          msgSnapshotDefaultKey := by
      by_cases hm : c.OMIRegionKMSKeyIDs.length > 0
      · rw [if_pos hm,
          foldl_append_filterMap (fun kv : String × String => goLen kv.2 == 0)
            (fun _ : String × String => msgSnapshotDefaultKey),
          List.nil_append, filterMap_ite_const, filter_emptyVal_eq]
      · have h0 : c.OMIRegionKMSKeyIDs = [] := List.length_eq_zero.mp (Nat.eq_zero_of_not_pos hm)
        simp [h0]
    rw [h2]
    by_cases hk : c.OMIKmsKeyId = ""
    · by_cases he : c.OMIEncryptBootVolume = true
      · have : (goLen c.OMIKmsKeyId == 0 && c.OMIEncryptBootVolume) = true := by
          simp [hk, he, goLen_empty]
        rw [if_pos this, if_pos ⟨hk, he⟩, Nat.add_comm]
        rfl
      · have : (goLen c.OMIKmsKeyId == 0 && c.OMIEncryptBootVolume) = false := by
          simp [Bool.not_eq_true] at he
          simp [he]
        rw [if_neg (by simp [this]), if_neg (by intro hc; exact he hc.2)]
        simp
    · have : (goLen c.OMIKmsKeyId == 0 && c.OMIEncryptBootVolume) = false := by
        have : ¬ goLen c.OMIKmsKeyId = 0 := fun hh => hk ((goLen_eq_zero_iff _).mp hh)
        simp [this]
      rw [if_neg (by simp [this]), if_neg (by intro hc; exact hk hc.1)]
      simp

/-- Claim C5: with non-empty `snapshot_users`, the error about sharing a
snapshot encrypted with the default KMS key is emitted once when the default
key id is empty and boot encryption is on, plus once per empty-valued entry of
`region_kms_key_ids` (regardless of the encryption flag); with empty
`snapshot_users` it is never emitted. -/
theorem C5_snapshot_share_errors (c : OMIConfig) :
    snapshotShareErrs c =
      List.replicate
        (if c.SnapshotUsers = [] then 0
         else (if c.OMIKmsKeyId = "" ∧ c.OMIEncryptBootVolume = true then 1 else 0) +
              (c.OMIRegionKMSKeyIDs.filter (fun kv => kv.2 == "")).length)
        msgSnapshotDefaultKey :=
  snapshotShareErrs_eq c

/-- Claim C6: running the reconciler a second time on the deduplicated,
origin-free region list it produced returns that same list and emits no error
the first run had not already emitted. -/
theorem C6_reconcile_idempotent (c : OMIConfig) (ac : Option AccessConfig) :
    (((c.prepareRegions ac).1).prepareRegions ac).1.OMIRegions =
      (c.prepareRegions ac).1.OMIRegions ∧
    ∀ e ∈ (((c.prepareRegions ac).1).prepareRegions ac).2, e ∈ (c.prepareRegions ac).2 := by
  have h1 := prepareRegions_eq c ac
  have hout : (c.prepareRegions ac).1.OMIRegions =
      (dedupFirstFrom [] c.OMIRegions).filter (fun r => !originMatches ac r) := by
    rw [h1]
  have hnd : ((c.prepareRegions ac).1.OMIRegions).Nodup := by
    rw [hout]
    exact (dedupFirstFrom_nodup _ _).filter _
  have hded : dedupFirstFrom [] ((c.prepareRegions ac).1.OMIRegions) =
      (c.prepareRegions ac).1.OMIRegions :=
    dedupFirstFrom_eq_self _ hnd [] (fun x _ hx => List.not_mem_nil x hx)
  have hfil : ((c.prepareRegions ac).1.OMIRegions).filter (fun r => !originMatches ac r) =
      (c.prepareRegions ac).1.OMIRegions := by
    refine List.filter_eq_self.mpr ?_
    intro x hx
    rw [hout] at hx
    exact (List.mem_filter.mp hx).2
  have hmap : ((c.prepareRegions ac).1).OMIRegionKMSKeyIDs = c.OMIRegionKMSKeyIDs := by
    rw [h1]
  constructor
  · rw [prepareRegions_eq ((c.prepareRegions ac).1) ac]
    show (dedupFirstFrom [] ((c.prepareRegions ac).1.OMIRegions)).filter
        (fun r => !originMatches ac r) = (c.prepareRegions ac).1.OMIRegions
    rw [hded, hfil]
  · intro e he
    rw [prepareRegions_eq ((c.prepareRegions ac).1) ac] at he
    have he' : e ∈ (dedupFirstFrom [] ((c.prepareRegions ac).1.OMIRegions)).filterMap
        (regionErrOpt c.OMIRegionKMSKeyIDs) := by
      rw [← hmap]
      exact he
    rw [hded, hout] at he'
    rcases List.mem_filterMap.mp he' with ⟨r, hr, hf⟩
    rw [h1]
    exact List.mem_filterMap.mpr ⟨r, (List.mem_filter.mp hr).1, hf⟩

/-- A concrete configuration for the C6 witness: one region missing from a
non-empty key map. -/
def c6Config : OMIConfig :=
  { sampleConfig with OMIRegions := ["b", "b"], OMIRegionKMSKeyIDs := [("a", "k")] }

/-- Witness for C6 at a concrete input: the error the second reconciliation run
emits for `b` was already emitted by the first run. -/
theorem C6_reconcile_idempotent_witness :
    regionNotInMapMsg "b" ∈ (c6Config.prepareRegions none).2 :=
  (C6_reconcile_idempotent c6Config none).2 (regionNotInMapMsg "b") (by decide)

/-- Claim C7: `Prepare` emits the name-length error exactly when the byte length
of `omi_name` lies outside the inclusive range [3, 128]; names of length 2 or
129 fail the bounds check, names of length 3 or 128 pass it. -/
theorem C7_name_length_bounds (c : OMIConfig) (ac : Option AccessConfig) :
    (msgNameLength ∈ (c.Prepare ac).2 ↔
      (goLen c.OMIName < 3 ∨ goLen c.OMIName > 128)) ∧
    nameLengthErrs { sampleConfig with OMIName := String.mk (List.replicate 2 'a') } =
      [msgNameLength] ∧
    nameLengthErrs { sampleConfig with OMIName := String.mk (List.replicate 129 'a') } =
      [msgNameLength] ∧
    nameLengthErrs { sampleConfig with OMIName := String.mk (List.replicate 3 'a') } = [] ∧
    nameLengthErrs { sampleConfig with OMIName := String.mk (List.replicate 128 'a') } = [] := by
  refine ⟨?_, by decide, by decide, by decide, by decide⟩
  rw [Prepare_errs]
  simp only [List.mem_append]
  constructor
  · rintro (((((((h | h) | h) | h) | h) | h) | h) | h)
    · exact absurd (mem_nameRequiredErrs h) (by decide)
    · rcases mem_regionKeyMapCrossErrs h with ⟨r, hr⟩
      exact absurd hr.symm (string_ne_of_head (by rw [regionNotInOmiMsg_head]; decide))
    · rcases mem_prepareRegions_snd h with ⟨r, hr⟩
      exact absurd hr.symm (string_ne_of_head (by rw [regionNotInMapMsg_head]; decide))
    · exact absurd (mem_shareEncryptErrs h) (by decide)
    · rcases mem_kmsKeyErrs h with ⟨k, _, hk⟩
      exact absurd hk.symm (string_ne_of_last (by rw [kmsInvalidMsg_last]; decide))
    · exact absurd (mem_snapshotShareErrs h) (by decide)
    · exact (mem_nameLengthErrs.mp h).1
    · exact absurd (mem_nameCleanErrs h) (by decide)
  · intro hcond
    exact Or.inl (Or.inr (mem_nameLengthErrs.mpr ⟨hcond, rfl⟩))

/-- Claim C8: `Prepare` mutates only the `OMIRegions` field: every other field
of the configuration keeps its value. -/
theorem C8_frame (c : OMIConfig) (ac : Option AccessConfig) :
    (c.Prepare ac).1.OMIName = c.OMIName ∧
    (c.Prepare ac).1.OMIDescription = c.OMIDescription ∧
    (c.Prepare ac).1.OMIVirtType = c.OMIVirtType ∧
    (c.Prepare ac).1.OMIUsers = c.OMIUsers ∧
    (c.Prepare ac).1.OMIGroups = c.OMIGroups ∧
    (c.Prepare ac).1.OMIProductCodes = c.OMIProductCodes ∧
    (c.Prepare ac).1.OMISkipRegionValidation = c.OMISkipRegionValidation ∧
    (c.Prepare ac).1.OMITags = c.OMITags ∧
    (c.Prepare ac).1.OMIENASupport = c.OMIENASupport ∧
    (c.Prepare ac).1.OMISriovNetSupport = c.OMISriovNetSupport ∧
    (c.Prepare ac).1.OMIForceDeregister = c.OMIForceDeregister ∧
    (c.Prepare ac).1.OMIForceDeleteSnapshot = c.OMIForceDeleteSnapshot ∧
    (c.Prepare ac).1.OMIEncryptBootVolume = c.OMIEncryptBootVolume ∧
    (c.Prepare ac).1.OMIKmsKeyId = c.OMIKmsKeyId ∧
    (c.Prepare ac).1.OMIRegionKMSKeyIDs = c.OMIRegionKMSKeyIDs ∧
    (c.Prepare ac).1.SnapshotTags = c.SnapshotTags ∧
    (c.Prepare ac).1.SnapshotUsers = c.SnapshotUsers ∧
    (c.Prepare ac).1.SnapshotGroups = c.SnapshotGroups := by
  rw [Prepare_fst, prepareRegions_eq]
  exact ⟨rfl, rfl, rfl, rfl, rfl, rfl, rfl, rfl, rfl, rfl, rfl, rfl, rfl, rfl, rfl, rfl,
    rfl, rfl⟩

theorem filterMap_replicate_invalid :
    ∀ n : Nat, (List.replicate n "").filterMap
        (fun k => if validateKmsKey k then none else some (kmsInvalidMsg k)) =
      List.replicate n (kmsInvalidMsg "") := by
  intro n
  induction n with
  | zero => rfl
  | succ k ih =>
    rw [List.replicate_succ, List.filterMap_cons_some (b := kmsInvalidMsg "") (by decide), ih,
      List.replicate_succ]

/-- Claim C9: when the default key id is empty and `region_kms_key_ids` has at
least one empty-valued entry, the candidate key list is the empty string once
per such entry, the recognizer rejects the empty string, and `Prepare` emits the
error naming the empty string exactly once per such entry. -/
theorem C9_empty_default_key (c : OMIConfig) (ac : Option AccessConfig)
    (h0 : c.OMIKmsKeyId = "")
    (_h1 : (c.OMIRegionKMSKeyIDs.filter (fun kv => kv.2 == "")).length > 0) :
    kmsKeys c =
      List.replicate ((c.OMIRegionKMSKeyIDs.filter (fun kv => kv.2 == "")).length) "" ∧
    validateKmsKey "" = false ∧
    (c.Prepare ac).2.count (kmsInvalidMsg "") =
      (c.OMIRegionKMSKeyIDs.filter (fun kv => kv.2 == "")).length := by
  have hks : kmsKeys c =
      List.replicate ((c.OMIRegionKMSKeyIDs.filter (fun kv => kv.2 == "")).length) "" := by
    rw [kmsKeys_eq, h0]
    simp
  have herrs : kmsKeyErrs c =
      List.replicate ((c.OMIRegionKMSKeyIDs.filter (fun kv => kv.2 == "")).length)
        (kmsInvalidMsg "") := by
    rw [kmsKeyErrs_eq, hks, filterMap_replicate_invalid]
  refine ⟨hks, by decide, ?_⟩
  rw [Prepare_errs]
  simp only [List.count_append]
  have z1 : (nameRequiredErrs c).count (kmsInvalidMsg "") = 0 :=
    List.count_eq_zero.mpr (fun h => absurd (mem_nameRequiredErrs h) (by decide))
  have z2 : (regionKeyMapCrossErrs c).count (kmsInvalidMsg "") = 0 :=
    List.count_eq_zero.mpr (fun h => by
      rcases mem_regionKeyMapCrossErrs h with ⟨r, hr⟩
      exact string_ne_of_head (by rw [regionNotInOmiMsg_head]; decide) hr.symm)
  have z3 : ((c.prepareRegions ac).2).count (kmsInvalidMsg "") = 0 :=
    List.count_eq_zero.mpr (fun h => by
      rcases mem_prepareRegions_snd h with ⟨r, hr⟩
      exact string_ne_of_head (by rw [regionNotInMapMsg_head]; decide) hr.symm)
  have z4 : (shareEncryptErrs c).count (kmsInvalidMsg "") = 0 :=
    List.count_eq_zero.mpr (fun h => absurd (mem_shareEncryptErrs h) (by decide))
  have z6 : (snapshotShareErrs c).count (kmsInvalidMsg "") = 0 :=
    List.count_eq_zero.mpr (fun h => absurd (mem_snapshotShareErrs h) (by decide))
  have z7 : (nameLengthErrs c).count (kmsInvalidMsg "") = 0 :=
    List.count_eq_zero.mpr (fun h => absurd (mem_nameLengthErrs.mp h).2 (by decide))
  have z8 : (nameCleanErrs c).count (kmsInvalidMsg "") = 0 :=
    List.count_eq_zero.mpr (fun h => absurd (mem_nameCleanErrs h) (by decide))
  have z5 : (kmsKeyErrs c).count (kmsInvalidMsg "") =
      (c.OMIRegionKMSKeyIDs.filter (fun kv => kv.2 == "")).length := by
    rw [herrs, List.count_replicate_self]
  rw [z1, z2, z3, z4, z5, z6, z7, z8]
  omega

/-- A concrete configuration for the C9 witness: empty default key id and one
empty-valued entry in the region key map. -/
def c9Config : OMIConfig :=
  { sampleConfig with OMIRegions := ["r"], OMIRegionKMSKeyIDs := [("r", "")] }

/-- Witness for C9 at a concrete input: the error naming the empty string is
emitted exactly once. -/
theorem C9_empty_default_key_witness :
    (c9Config.Prepare none).2.count (kmsInvalidMsg "") = 1 :=
  ((C9_empty_default_key c9Config none rfl (by decide)).2.2).trans (by decide)

/-- Claim C10: the validator ignores the description, virtualization type,
groups, product codes, tags, skip-region-validation, ENA, SR-IOV,
force-deregister, force-delete-snapshot, snapshot-tag and snapshot-group
fields: two configurations agreeing on all the other fields produce the same
error list and the same final region list. -/
theorem C10_noninterference (c₁ c₂ : OMIConfig) (ac : Option AccessConfig)
    (hn : c₁.OMIName = c₂.OMIName)
    (hu : c₁.OMIUsers = c₂.OMIUsers)
    (hr : c₁.OMIRegions = c₂.OMIRegions)
    (he : c₁.OMIEncryptBootVolume = c₂.OMIEncryptBootVolume)
    (hk : c₁.OMIKmsKeyId = c₂.OMIKmsKeyId)
    (hm : c₁.OMIRegionKMSKeyIDs = c₂.OMIRegionKMSKeyIDs)
    (hs : c₁.SnapshotUsers = c₂.SnapshotUsers) :
    (c₁.Prepare ac).2 = (c₂.Prepare ac).2 ∧
    (c₁.Prepare ac).1.OMIRegions = (c₂.Prepare ac).1.OMIRegions := by
  constructor
  · rw [Prepare_errs, Prepare_errs]
    have e1 : nameRequiredErrs c₁ = nameRequiredErrs c₂ := by
      unfold nameRequiredErrs; rw [hn]
    have e2 : regionKeyMapCrossErrs c₁ = regionKeyMapCrossErrs c₂ := by
      unfold regionKeyMapCrossErrs; rw [hm, hr]
    have e3 : (c₁.prepareRegions ac).2 = (c₂.prepareRegions ac).2 := by
      rw [prepareRegions_eq, prepareRegions_eq]
      show (dedupFirstFrom [] c₁.OMIRegions).filterMap (regionErrOpt c₁.OMIRegionKMSKeyIDs) =
        (dedupFirstFrom [] c₂.OMIRegions).filterMap (regionErrOpt c₂.OMIRegionKMSKeyIDs)
      rw [hm, hr]
    have e4 : shareEncryptErrs c₁ = shareEncryptErrs c₂ := by
      unfold shareEncryptErrs; rw [hu, he]
    have e5 : kmsKeyErrs c₁ = kmsKeyErrs c₂ := by
      unfold kmsKeyErrs kmsKeys; rw [hk, hm]
    have e6 : snapshotShareErrs c₁ = snapshotShareErrs c₂ := by
      unfold snapshotShareErrs; rw [hs, hk, hm, he]
    have e7 : nameLengthErrs c₁ = nameLengthErrs c₂ := by
      unfold nameLengthErrs; rw [hn]
    have e8 : nameCleanErrs c₁ = nameCleanErrs c₂ := by
      unfold nameCleanErrs; rw [hn]
    rw [e1, e2, e3, e4, e5, e6, e7, e8]
  · rw [Prepare_fst, Prepare_fst, prepareRegions_eq, prepareRegions_eq]
    show (dedupFirstFrom [] c₁.OMIRegions).filter (fun r => !originMatches ac r) =
      (dedupFirstFrom [] c₂.OMIRegions).filter (fun r => !originMatches ac r)
    rw [hr]

/-- First configuration for the C10 witness: decoy values in ignored fields. -/
def c10ConfigA : OMIConfig :=
  { sampleConfig with
    OMIDescription := "one"
    OMIGroups := ["g"]
    OMISriovNetSupport := true
    OMIRegions := ["x"]
    SnapshotTags := [("t", "v")] }

/-- Second configuration for the C10 witness: different decoy values, same
relevant fields. -/
def c10ConfigB : OMIConfig :=
  { sampleConfig with
    OMIDescription := "two"
    OMIForceDeregister := true
    OMIENASupport := some true
    OMIRegions := ["x"]
    SnapshotGroups := ["sg"] }

/-- Witness for C10 at concrete inputs: the two configurations differ only in
ignored fields and produce identical error and region lists. -/
theorem C10_noninterference_witness :
    (c10ConfigA.Prepare none).2 = (c10ConfigB.Prepare none).2 ∧
    (c10ConfigA.Prepare none).1.OMIRegions = (c10ConfigB.Prepare none).1.OMIRegions :=
  C10_noninterference c10ConfigA c10ConfigB none rfl rfl rfl rfl rfl rfl rfl
